import Mathlib

/-!
# Verification of the libsyntax2 core (lossless syntax trees, reparse, typed AST)

Shallow embedding of `crates/libsyntax2/src/lib.rs` and
`crates/libsyntax2/src/ast/{mod,generated}.rs`.

The repository's `lexer`, `grammar`, `parser_impl`, `algo`, `yellow` and
`syntax_kinds` modules are not part of the given sources; where a claim
depends on them they are modelled from the specification (each such
definition's doc comment says so).  Text is modelled as `List Char`;
offsets are character offsets.
-/

namespace Libsyntax2

/-- Modelled from the spec: the closed kind catalogue (`syntax_kinds` module is
not in the sources).  Only the kinds the verified claims mention are listed:
the token kinds, the reparsable node kinds, and the kind sets declared by the
generated wrapper types (`Expr`, `TypeRef`, `NominalDef`, plain wrappers). -/
inductive SyntaxKind where
  | L_CURLY | R_CURLY | IDENT | WHITESPACE | SEMI | ERROR
  | ROOT | BLOCK | NAMED_FIELD_DEF_LIST | FN_DEF | IMPL_ITEM
  | NAME | NAME_REF | TYPE_PARAM_LIST | WHERE_CLAUSE | ATTR | TOKEN_TREE
  | STRUCT_DEF | ENUM_DEF
  | TUPLE_EXPR | ARRAY_EXPR | PAREN_EXPR | PATH_EXPR | LAMBDA_EXPR | IF_EXPR
  | LOOP_EXPR | FOR_EXPR | WHILE_EXPR | CONTINUE_EXPR | BREAK_EXPR | LABEL
  | BLOCK_EXPR | RETURN_EXPR | MATCH_EXPR | MATCH_ARM_LIST | MATCH_ARM
  | MATCH_GUARD | STRUCT_LIT | NAMED_FIELD_LIST | NAMED_FIELD | CALL_EXPR
  | INDEX_EXPR | METHOD_CALL_EXPR | FIELD_EXPR | TRY_EXPR | CAST_EXPR
  | REF_EXPR | PREFIX_EXPR | RANGE_EXPR | BIN_EXPR
  | PAREN_TYPE | TUPLE_TYPE | NEVER_TYPE | PATH_TYPE | POINTER_TYPE
  | ARRAY_TYPE | SLICE_TYPE | REFERENCE_TYPE | PLACEHOLDER_TYPE
  | FN_POINTER_TYPE | FOR_TYPE | IMPL_TRAIT_TYPE | DYN_TRAIT_TYPE
  deriving DecidableEq, Repr

open SyntaxKind

/-- Embedding of `text_unit::TextRange`: a half-open character range `[start, stop)`. -/
structure TextRange where
  start : Nat
  stop : Nat
  deriving DecidableEq, Repr

/-- Embedding of `TextRange - TextUnit` (shifting a range left by an offset, as used in
`edit.delete - node.range().start()`).  Rust's `TextUnit` subtraction would
panic on underflow; the call site always has `offset ≤ range.start`, and we
model the operation with truncated subtraction. -/
def TextRange.sub (r : TextRange) (offset : Nat) : TextRange :=
  ⟨r.start - offset, r.stop - offset⟩

/-- Modelled from the spec: `lexer::Token` — tokenizers produce an
"ordered sequence of (kind, length) tokens covering the entire input". -/
structure Token where
  kind : SyntaxKind
  len : Nat
  deriving DecidableEq, Repr

/-- Modelled from the spec: a green node is "either a composite node (kind +
ordered sequence of child green nodes) or a token leaf (kind + exact source
text)" (the `yellow` module is not in the sources). -/
inductive GreenNode where
  | node (kind : SyntaxKind) (children : List GreenNode)
  | leaf (kind : SyntaxKind) (text : List Char)
  deriving Repr

mutual

/-- Boolean structural equality of green nodes. -/
def GreenNode.beq : GreenNode → GreenNode → Bool
  | .node k1 cs1, .node k2 cs2 => k1 == k2 && GreenNode.beqList cs1 cs2
  | .leaf k1 t1, .leaf k2 t2 => k1 == k2 && t1 == t2
  | _, _ => false

/-- Boolean structural equality of green node lists. -/
def GreenNode.beqList : List GreenNode → List GreenNode → Bool
  | [], [] => true
  | a :: as_, b :: bs => GreenNode.beq a b && GreenNode.beqList as_ bs
  | _, _ => false

end

mutual

theorem GreenNode.beq_iff : ∀ a b : GreenNode, GreenNode.beq a b = true ↔ a = b
  | .node k1 cs1, .node k2 cs2 => by
      simp [GreenNode.beq, GreenNode.beqList_iff cs1 cs2]
  | .node _ _, .leaf _ _ => by simp [GreenNode.beq]
  | .leaf _ _, .node _ _ => by simp [GreenNode.beq]
  | .leaf k1 t1, .leaf k2 t2 => by simp [GreenNode.beq]

theorem GreenNode.beqList_iff : ∀ a b : List GreenNode, GreenNode.beqList a b = true ↔ a = b
  | [], [] => by simp [GreenNode.beqList]
  | [], _ :: _ => by simp [GreenNode.beqList]
  | _ :: _, [] => by simp [GreenNode.beqList]
  | a :: as_, b :: bs => by
      simp [GreenNode.beqList, GreenNode.beq_iff a b, GreenNode.beqList_iff as_ bs]

end

instance : DecidableEq GreenNode := fun a b => decidable_of_iff _ (GreenNode.beq_iff a b)

/-- The kind stored in a green node. -/
def GreenNode.kind : GreenNode → SyntaxKind
  | .node k _ => k
  | .leaf k _ => k

mutual

/-- Full text of a green subtree: concatenation of its token leaf texts in
document order. -/
def GreenNode.text : GreenNode → List Char
  | .node _ cs => GreenNode.textList cs
  | .leaf _ t => t

/-- Concatenated text of a list of green trees. -/
def GreenNode.textList : List GreenNode → List Char
  | [] => []
  | c :: cs => GreenNode.text c ++ GreenNode.textList cs

end

/-- Width (text length) of a green node. -/
def GreenNode.width (g : GreenNode) : Nat := g.text.length

/-- Look up the green node at a child-index path. -/
def greenAt : GreenNode → List Nat → Option GreenNode
  | g, [] => some g
  | .node _ cs, i :: rest =>
      match cs.get? i with
      | some c => greenAt c rest
      | none => none
  | .leaf _ _, _ :: _ => none

/-- Absolute start offset of the node reached by `path` from `g` (0 when the
path is invalid beyond the valid prefix). -/
def startOffset : GreenNode → List Nat → Nat
  | _, [] => 0
  | .node _ cs, i :: rest =>
      (GreenNode.textList (cs.take i)).length +
        (match cs.get? i with
         | some c => startOffset c rest
         | none => 0)
  | .leaf _ _, _ :: _ => 0

/-- Modelled from the spec: the navigable ("red") view — "(handle to the
owning tree root, path identifying a position within it)"; kind, range,
text, parent, siblings and children are computed on demand (the `yellow`
module is not in the sources). -/
structure SyntaxNodeRef where
  root : GreenNode
  path : List Nat
  deriving DecidableEq, Repr

namespace SyntaxNodeRef

/-- The green node this reference designates. -/
def green (n : SyntaxNodeRef) : Option GreenNode := greenAt n.root n.path

/-- Kind of the node (the `ERROR` kind on a dangling path, which never arises
for references produced by navigation). -/
def kind (n : SyntaxNodeRef) : SyntaxKind :=
  match n.green with
  | some g => g.kind
  | none => ERROR

/-- Full text of the node's subtree. -/
def text (n : SyntaxNodeRef) : List Char :=
  match n.green with
  | some g => g.text
  | none => []

/-- Absolute range of the node within the root's text. -/
def range (n : SyntaxNodeRef) : TextRange :=
  let s := startOffset n.root n.path
  ⟨s, s + n.text.length⟩

/-- Direct children, in document order. -/
def children (n : SyntaxNodeRef) : List SyntaxNodeRef :=
  match n.green with
  | some (.node _ cs) => (List.range cs.length).map fun i => ⟨n.root, n.path ++ [i]⟩
  | _ => []

/-- Parent node (`none` at the root). -/
def parent (n : SyntaxNodeRef) : Option SyntaxNodeRef :=
  match n.path with
  | [] => none
  | _ :: _ => some ⟨n.root, n.path.dropLast⟩

/-- Number of children of the node designated by a path. -/
def siblingCount (n : SyntaxNodeRef) : Nat :=
  match greenAt n.root n.path.dropLast with
  | some (.node _ cs) => cs.length
  | _ => 0

/-- Next sibling, if any. -/
def next_sibling (n : SyntaxNodeRef) : Option SyntaxNodeRef :=
  match n.path.getLast? with
  | none => none
  | some i =>
      if i + 1 < n.siblingCount then some ⟨n.root, n.path.dropLast ++ [i + 1]⟩
      else none

/-- Previous sibling, if any. -/
def prev_sibling (n : SyntaxNodeRef) : Option SyntaxNodeRef :=
  match n.path.getLast? with
  | none => none
  | some i =>
      match i with
      | 0 => none
      | j + 1 => some ⟨n.root, n.path.dropLast ++ [j]⟩

end SyntaxNodeRef

/-- All prefixes of a path, shortest first. -/
def pathPrefixes : List Nat → List (List Nat)
  | [] => [[]]
  | i :: rest => [] :: (pathPrefixes rest).map (i :: ·)

/-- All prefixes of a path from the path itself down to the root path,
longest first. -/
def pathAncestors (p : List Nat) : List (List Nat) :=
  (pathPrefixes p).reverse

/-- Modelled from the spec: `algo::ancestors` — "an ancestor sequence
starting at itself" (the `algo` module is not in the sources). -/
def ancestors (n : SyntaxNodeRef) : List SyntaxNodeRef :=
  (pathAncestors n.path).map fun p => ⟨n.root, p⟩

/-- Whether the range starting at `off` with width `w` fully contains `r`. -/
def coversFrom (off w : Nat) (r : TextRange) : Bool :=
  off ≤ r.start && r.stop ≤ off + w

mutual

/-- Modelled from the spec: `algo::find_covering_node` — descend from the
root into any child whose range fully contains the target range, returning
the last node reached ("the smallest existing node whose range fully
contains the edit's delete range"); the `algo` module is not in the sources. -/
def findCoveringPath : GreenNode → List Nat → Nat → TextRange → List Nat
  | .leaf _ _, path, _, _ => path
  | .node _ cs, path, off, r => findCoveringChild cs path off 0 r

/-- Scan the children at cumulative offsets for one covering the range. -/
def findCoveringChild : List GreenNode → List Nat → Nat → Nat → TextRange → List Nat
  | [], path, _, _, _ => path
  | c :: rest, path, off, i, r =>
      if coversFrom off c.width r then findCoveringPath c (path ++ [i]) off r
      else findCoveringChild rest path (off + c.width) (i + 1) r

end

/-- Modelled from the spec: `algo::find_covering_node` on a navigable node. -/
def find_covering_node (n : SyntaxNodeRef) (range : TextRange) : SyntaxNodeRef :=
  ⟨n.root, findCoveringPath (match n.green with | some g => g | none => .leaf ERROR []) n.path
    (startOffset n.root n.path) range⟩

/-- The two dedicated grammar entry points reachable from
`find_reparsable_node` (`grammar::block`, `grammar::named_field_def_list`;
the `grammar` module is not in the sources, so entry points are opaque tags). -/
inductive ReparseEntry where
  | block
  | named_field_def_list
  deriving DecidableEq, Repr

/-- The inner `reparser` match of `find_reparsable_node` (lib.rs):
`BLOCK => grammar::block`, `NAMED_FIELD_DEF_LIST => grammar::named_field_def_list`,
anything else `None`. -/
def reparser (k : SyntaxKind) : Option ReparseEntry :=
  match k with
  | BLOCK => some .block
  | NAMED_FIELD_DEF_LIST => some .named_field_def_list
  | _ => none

/-- Embedding of `find_reparsable_node` (lib.rs): take the covering node of `range`, then
the first element of its ancestor chain for which `reparser` is defined,
paired with that entry point. -/
def find_reparsable_node (node : SyntaxNodeRef) (range : TextRange) :
    Option (SyntaxNodeRef × ReparseEntry) :=
  let node := find_covering_node node range
  ((ancestors node).filterMap fun n => (reparser n.kind).map fun r => (n, r)).head?

/-- Embedding of `replace_range` (lib.rs): `text.replace_range(start..end, replace_with)`. -/
def replace_range (text : List Char) (range : TextRange) (replace_with : List Char) :
    List Char :=
  text.take range.start ++ replace_with ++ text.drop range.stop

/-- The loop of `is_balanced` (lib.rs): `balance` is a `usize` updated with
`checked_sub`; `none` models the early `return false` on underflow. -/
def balanceLoop : List Token → Nat → Option Nat
  | [], b => some b
  | t :: ts, b =>
      match t.kind with
      | L_CURLY => balanceLoop ts (b + 1)
      | R_CURLY =>
          match b with
          | 0 => none
          | b' + 1 => balanceLoop ts b'
      | _ => balanceLoop ts b

/-- Embedding of `is_balanced` (lib.rs): non-empty, first token `L_CURLY`, last token
`R_CURLY`, and the running balance never underflows and ends at zero. -/
def is_balanced (tokens : List Token) : Bool :=
  if tokens.length = 0 ∨
      (tokens.head?.map Token.kind) ≠ some L_CURLY ∨
      (tokens.getLast?.map Token.kind) ≠ some R_CURLY then
    false
  else
    match balanceLoop tokens 0 with
    | none => false
    | some b => b = 0

/-- Signed depth contribution of one token: `+1` for `L_CURLY`, `-1` for
`R_CURLY`, `0` otherwise (the specification's "running nesting-depth counter
over curly-brace tokens"). -/
def curlyDelta (t : Token) : Int :=
  match t.kind with
  | L_CURLY => 1
  | R_CURLY => -1
  | _ => 0

/-- Net curly nesting depth of a token sequence. -/
def curlyDepth (ts : List Token) : Int := (ts.map curlyDelta).sum

/-- Embedding of `yellow::SyntaxError` — modelled from the spec: a "(position-or-range,
message) pair" (the `yellow` module is not in the sources). -/
structure SyntaxError where
  msg : List Char
  offset : Nat
  deriving DecidableEq, Repr

/-- Modelled from the spec: one event of the builder contract the grammar
drives — "`start_node(kind)`, `token(kind, text)`, `finish_node()`,
`error(message)`" (the `parser_impl`/`grammar` modules are not in the
sources). -/
inductive Event where
  | startNode (kind : SyntaxKind)
  | token (kind : SyntaxKind) (text : List Char)
  | finishNode
  | error (e : SyntaxError)
  deriving DecidableEq, Repr

/-- Modelled from the spec: `yellow::GreenBuilder` — "a balanced sequence of
these calls is materialized by the core into a green tree plus a diagnostic
list".  The stack holds unfinished frames (kind, children in reverse); an
unbalanced sequence yields `none`. -/
def buildLoop : List Event → List (SyntaxKind × List GreenNode) → List SyntaxError →
    Option (GreenNode × List SyntaxError)
  | [], _, _ => none
  | .startNode k :: es, stack, errs => buildLoop es ((k, []) :: stack) errs
  | .token k t :: es, (fk, cs) :: rest, errs =>
      buildLoop es ((fk, .leaf k t :: cs) :: rest) errs
  | .token _ _ :: _, [], _ => none
  | .error e :: es, stack, errs => buildLoop es stack (errs ++ [e])
  | .finishNode :: es, [(k, cs)], errs =>
      match es with
      | [] => some (.node k cs.reverse, errs)
      | _ :: _ => none
  | .finishNode :: es, (k, cs) :: (k2, cs2) :: rest, errs =>
      buildLoop es ((k2, .node k cs.reverse :: cs2) :: rest) errs
  | .finishNode :: _, [], _ => none

/-- Materialize a whole event sequence into a green tree and diagnostics. -/
def build (events : List Event) : Option (GreenNode × List SyntaxError) :=
  buildLoop events [] []

/-- Concatenation of the texts of the `token` events of a sequence, in
order. -/
def eventsTokenText : List Event → List Char
  | [] => []
  | .token _ t :: es => t ++ eventsTokenText es
  | _ :: es => eventsTokenText es

/-- Embedding of `File` (lib.rs): the navigable root plus its diagnostics.  The red root
is `⟨root, []⟩`; the green tree and error list are the stored data. -/
structure File where
  root : GreenNode
  errors : List SyntaxError
  deriving DecidableEq, Repr

/-- Embedding of `AtomEdit` (lib.rs): a delete range plus an insertion string. -/
structure AtomEdit where
  delete : TextRange
  insert : List Char
  deriving DecidableEq, Repr

/-- Embedding of `AtomEdit::replace`. -/
def AtomEdit.replace (range : TextRange) (replace_with : List Char) : AtomEdit :=
  ⟨range, replace_with⟩

/-- Embedding of `AtomEdit::delete`. -/
def AtomEdit.deleteEdit (range : TextRange) : AtomEdit :=
  AtomEdit.replace range []

/-- Embedding of `AtomEdit::insert`. -/
def AtomEdit.insertEdit (offset : Nat) (text : List Char) : AtomEdit :=
  AtomEdit.replace ⟨offset, offset⟩ text

namespace File

/-- Embedding of `File::syntax` — the borrowed navigable root (named `stx` here since
the source's name is a reserved word). -/
def stx (f : File) : SyntaxNodeRef := ⟨f.root, []⟩

/-- Full source text of a file (text of its root). -/
def text (f : File) : List Char := f.root.text

/-- Embedding of `File::errors` — a copy of the diagnostic list. -/
def errorsOut (f : File) : List SyntaxError := f.errors

/-- Embedding of `File::parse` (lib.rs), with the external tokenizer + grammar driver
abstracted as `grammar : text → builder events` (the spec's
"tree-construction events (external grammar…)"): materialize the events and
wrap the result as a `File`.  For a conforming grammar `build` always
succeeds; the `none` branch (never taken under the `GrammarOk` hypotheses
below) yields an empty root. -/
def parse (grammar : List Char → List Event) (text : List Char) : File :=
  match build (grammar text) with
  | some (green, errors) => ⟨green, errors⟩
  | none => ⟨.node ROOT [], []⟩

/-- Embedding of `File::full_reparse` (lib.rs): apply the edit to the whole text and parse
from scratch. -/
def full_reparse (grammar : List Char → List Event) (f : File) (edit : AtomEdit) : File :=
  parse grammar (replace_range f.text edit.delete edit.insert)

/-- Embedding of `File::incremental_reparse` (lib.rs), with the external `tokenize`
abstracted: find a reparsable node, apply the edit to its local text,
retokenize, bail out on an unbalanced token stream — and then (as in the
source, whose final expression is `None`) return `None` unconditionally. -/
def incremental_reparse (tokenize : List Char → List Token) (f : File)
    (edit : AtomEdit) : Option File :=
  match find_reparsable_node f.stx edit.delete with
  | none => none
  | some (node, _reparser) =>
      let text := replace_range node.text (edit.delete.sub node.range.start) edit.insert
      let tokens := tokenize text
      if ¬ (is_balanced tokens = true) then none
      else none

/-- Embedding of `File::reparse` (lib.rs): the incremental attempt, falling back to a full
reparse. -/
def reparse (grammar : List Char → List Event) (tokenize : List Char → List Token)
    (f : File) (edit : AtomEdit) : File :=
  match incremental_reparse tokenize f edit with
  | some f' => f'
  | none => full_reparse grammar f edit

end File

/-- Modelled from the spec: a conforming external grammar+tokenizer — its
event stream materializes into a tree ("a balanced sequence of these calls")
and its token events cover the input exactly ("covering the entire input
with no gaps"). -/
def GrammarOk (grammar : List Char → List Event) : Prop :=
  ∀ t, (build (grammar t)).isSome ∧ eventsTokenText (grammar t) = t

mutual

/-- Preorder traversal of the subtree rooted at green node `g` reached by
`path` from `root` (modelled from the spec: `algo::walk::preorder`, the
`algo` module not being in the sources). -/
def preorderAux (root : GreenNode) : GreenNode → List Nat → List SyntaxNodeRef
  | .leaf _ _, path => [⟨root, path⟩]
  | .node _ cs, path => ⟨root, path⟩ :: preorderList root cs path 0

/-- Preorder traversal of a list of sibling subtrees starting at child
index `i`. -/
def preorderList (root : GreenNode) : List GreenNode → List Nat → Nat → List SyntaxNodeRef
  | [], _, _ => []
  | c :: rest, path, i =>
      preorderAux root c (path ++ [i]) ++ preorderList root rest path (i + 1)

end

/-- Modelled from the spec: `algo::walk::preorder` over a navigable node. -/
def preorder (n : SyntaxNodeRef) : List SyntaxNodeRef :=
  match n.green with
  | some g => preorderAux n.root g n.path
  | none => []

/-- Preorder sequence of node kinds of a tree (the spec's "kind-shape"). -/
def preorderKinds (n : SyntaxNodeRef) : List SyntaxKind :=
  (preorder n).map SyntaxNodeRef.kind

/-- The loop of the debug-configuration `validate_block_structure` (lib.rs):
walk the preorder node list with a stack of open `L_CURLY` nodes; each
`R_CURLY` pops the stack (if non-empty) and asserts that the pair share a
parent and that the closer has no next sibling and the opener no previous
sibling.  The result is `true` iff no assertion fires. -/
def validateLoop : List SyntaxNodeRef → List SyntaxNodeRef → Bool
  | [], _ => true
  | n :: rest, stack =>
      match n.kind with
      | L_CURLY => validateLoop rest (n :: stack)
      | R_CURLY =>
          match stack with
          | [] => validateLoop rest []
          | pair :: stack' =>
              decide (n.parent = pair.parent) && n.next_sibling.isNone &&
                pair.prev_sibling.isNone && validateLoop rest stack'
      | _ => validateLoop rest stack

/-- Embedding of `validate_block_structure` under `debug_assertions` (lib.rs); `true` iff
no assertion fires. -/
def validate_block_structure (root : SyntaxNodeRef) : Bool :=
  validateLoop (preorder root) []

/-- Embedding of `validate_block_structure` under `not(debug_assertions)` (lib.rs): does
nothing. -/
def validate_block_structure_release (_ : SyntaxNodeRef) : Unit := ()

/-- The brace pairs matched by the stack discipline of `validateLoop`:
unmatched closers (empty stack) and unmatched openers (left on the stack at
the end) produce no pair. -/
def bracePairs : List SyntaxNodeRef → List SyntaxNodeRef → List (SyntaxNodeRef × SyntaxNodeRef)
  | [], _ => []
  | n :: rest, stack =>
      match n.kind with
      | L_CURLY => bracePairs rest (n :: stack)
      | R_CURLY =>
          match stack with
          | [] => bracePairs rest []
          | pair :: stack' => (n, pair) :: bracePairs rest stack'
      | _ => bracePairs rest stack

/-! ## Typed AST projection layer (ast/generated.rs, ast/mod.rs)

Each wrapper type holds exactly one navigable node (field `stx`, the
source's `syntax`).  Only the wrapper types the claims mention are
embedded.  The union types (`Expr`, `TypeRef`, `NominalDef`) are embedded
with each variant carrying the node directly, since in the source each
variant's payload is itself a one-field wrapper around the node. -/

/-- Embedding of `FnDef` wrapper (generated.rs). -/
structure FnDef where
  stx : SyntaxNodeRef
  deriving DecidableEq, Repr

/-- Embedding of `FnDef::cast`: defined exactly on kind `FN_DEF`. -/
def FnDef.cast (s : SyntaxNodeRef) : Option FnDef :=
  match s.kind with
  | FN_DEF => some ⟨s⟩
  | _ => none

/-- Embedding of `StructDef` wrapper (generated.rs). -/
structure StructDef where
  stx : SyntaxNodeRef
  deriving DecidableEq, Repr

/-- Embedding of `StructDef::cast`: defined exactly on kind `STRUCT_DEF`. -/
def StructDef.cast (s : SyntaxNodeRef) : Option StructDef :=
  match s.kind with
  | STRUCT_DEF => some ⟨s⟩
  | _ => none

/-- Embedding of `EnumDef` wrapper (generated.rs). -/
structure EnumDef where
  stx : SyntaxNodeRef
  deriving DecidableEq, Repr

/-- Embedding of `EnumDef::cast`: defined exactly on kind `ENUM_DEF`. -/
def EnumDef.cast (s : SyntaxNodeRef) : Option EnumDef :=
  match s.kind with
  | ENUM_DEF => some ⟨s⟩
  | _ => none

/-- Embedding of `Name` wrapper (generated.rs). -/
structure Name where
  stx : SyntaxNodeRef
  deriving DecidableEq, Repr

/-- Embedding of `Name::cast`: defined exactly on kind `NAME`. -/
def Name.cast (s : SyntaxNodeRef) : Option Name :=
  match s.kind with
  | NAME => some ⟨s⟩
  | _ => none

/-- Embedding of `TypeParamList` wrapper (generated.rs). -/
structure TypeParamList where
  stx : SyntaxNodeRef
  deriving DecidableEq, Repr

/-- Embedding of `TypeParamList::cast`: defined exactly on kind `TYPE_PARAM_LIST`. -/
def TypeParamList.cast (s : SyntaxNodeRef) : Option TypeParamList :=
  match s.kind with
  | TYPE_PARAM_LIST => some ⟨s⟩
  | _ => none

/-- Embedding of `WhereClause` wrapper (generated.rs). -/
structure WhereClause where
  stx : SyntaxNodeRef
  deriving DecidableEq, Repr

/-- Embedding of `WhereClause::cast`: defined exactly on kind `WHERE_CLAUSE`. -/
def WhereClause.cast (s : SyntaxNodeRef) : Option WhereClause :=
  match s.kind with
  | WHERE_CLAUSE => some ⟨s⟩
  | _ => none

/-- Embedding of `ImplItem` wrapper (generated.rs). -/
structure ImplItem where
  stx : SyntaxNodeRef
  deriving DecidableEq, Repr

/-- Embedding of `ImplItem::cast`: defined exactly on kind `IMPL_ITEM`. -/
def ImplItem.cast (s : SyntaxNodeRef) : Option ImplItem :=
  match s.kind with
  | IMPL_ITEM => some ⟨s⟩
  | _ => none

/-- Embedding of `NominalDef` tagged union (generated.rs): `StructDef` or `EnumDef`. -/
inductive NominalDef where
  | structDef (d : StructDef)
  | enumDef (d : EnumDef)
  deriving DecidableEq, Repr

/-- Embedding of `NominalDef::cast` (generated.rs). -/
def NominalDef.cast (s : SyntaxNodeRef) : Option NominalDef :=
  match s.kind with
  | STRUCT_DEF => some (.structDef ⟨s⟩)
  | ENUM_DEF => some (.enumDef ⟨s⟩)
  | _ => none

/-- Embedding of `NominalDef::syntax` (generated.rs). -/
def NominalDef.stx : NominalDef → SyntaxNodeRef
  | .structDef d => d.stx
  | .enumDef d => d.stx

/-- The declared kind set of `NominalDef`, in declaration order. -/
def NominalDef.kinds : List SyntaxKind := [STRUCT_DEF, ENUM_DEF]

/-- The declared kind of a `NominalDef` variant. -/
def NominalDef.variantKind : NominalDef → SyntaxKind
  | .structDef _ => STRUCT_DEF
  | .enumDef _ => ENUM_DEF

/-- Embedding of `Expr` tagged union (generated.rs); each variant's payload in the source
is the one-field wrapper of the corresponding kind, carried here as the node
itself. -/
inductive Expr where
  | tupleExpr (stx : SyntaxNodeRef)
  | arrayExpr (stx : SyntaxNodeRef)
  | parenExpr (stx : SyntaxNodeRef)
  | pathExpr (stx : SyntaxNodeRef)
  | lambdaExpr (stx : SyntaxNodeRef)
  | ifExpr (stx : SyntaxNodeRef)
  | loopExpr (stx : SyntaxNodeRef)
  | forExpr (stx : SyntaxNodeRef)
  | whileExpr (stx : SyntaxNodeRef)
  | continueExpr (stx : SyntaxNodeRef)
  | breakExpr (stx : SyntaxNodeRef)
  | label (stx : SyntaxNodeRef)
  | blockExpr (stx : SyntaxNodeRef)
  | returnExpr (stx : SyntaxNodeRef)
  | matchExpr (stx : SyntaxNodeRef)
  | matchArmList (stx : SyntaxNodeRef)
  | matchArm (stx : SyntaxNodeRef)
  | matchGuard (stx : SyntaxNodeRef)
  | structLit (stx : SyntaxNodeRef)
  | namedFieldList (stx : SyntaxNodeRef)
  | namedField (stx : SyntaxNodeRef)
  | callExpr (stx : SyntaxNodeRef)
  | indexExpr (stx : SyntaxNodeRef)
  | methodCallExpr (stx : SyntaxNodeRef)
  | fieldExpr (stx : SyntaxNodeRef)
  | tryExpr (stx : SyntaxNodeRef)
  | castExpr (stx : SyntaxNodeRef)
  | refExpr (stx : SyntaxNodeRef)
  | prefixExpr (stx : SyntaxNodeRef)
  | rangeExpr (stx : SyntaxNodeRef)
  | binExpr (stx : SyntaxNodeRef)
  deriving DecidableEq, Repr

/-- Embedding of `Expr::cast` (generated.rs): one arm per declared alternative kind. -/
def Expr.cast (s : SyntaxNodeRef) : Option Expr :=
  match s.kind with
  | TUPLE_EXPR => some (.tupleExpr s)
  | ARRAY_EXPR => some (.arrayExpr s)
  | PAREN_EXPR => some (.parenExpr s)
  | PATH_EXPR => some (.pathExpr s)
  | LAMBDA_EXPR => some (.lambdaExpr s)
  | IF_EXPR => some (.ifExpr s)
  | LOOP_EXPR => some (.loopExpr s)
  | FOR_EXPR => some (.forExpr s)
  | WHILE_EXPR => some (.whileExpr s)
  | CONTINUE_EXPR => some (.continueExpr s)
  | BREAK_EXPR => some (.breakExpr s)
  | LABEL => some (.label s)
  | BLOCK_EXPR => some (.blockExpr s)
  | RETURN_EXPR => some (.returnExpr s)
  | MATCH_EXPR => some (.matchExpr s)
  | MATCH_ARM_LIST => some (.matchArmList s)
  | MATCH_ARM => some (.matchArm s)
  | MATCH_GUARD => some (.matchGuard s)
  | STRUCT_LIT => some (.structLit s)
  | NAMED_FIELD_LIST => some (.namedFieldList s)
  | NAMED_FIELD => some (.namedField s)
  | CALL_EXPR => some (.callExpr s)
  | INDEX_EXPR => some (.indexExpr s)
  | METHOD_CALL_EXPR => some (.methodCallExpr s)
  | FIELD_EXPR => some (.fieldExpr s)
  | TRY_EXPR => some (.tryExpr s)
  | CAST_EXPR => some (.castExpr s)
  | REF_EXPR => some (.refExpr s)
  | PREFIX_EXPR => some (.prefixExpr s)
  | RANGE_EXPR => some (.rangeExpr s)
  | BIN_EXPR => some (.binExpr s)
  | _ => none

/-- Embedding of `Expr::syntax` (generated.rs). -/
def Expr.stx : Expr → SyntaxNodeRef
  | .tupleExpr s => s | .arrayExpr s => s | .parenExpr s => s | .pathExpr s => s
  | .lambdaExpr s => s | .ifExpr s => s | .loopExpr s => s | .forExpr s => s
  | .whileExpr s => s | .continueExpr s => s | .breakExpr s => s | .label s => s
  | .blockExpr s => s | .returnExpr s => s | .matchExpr s => s | .matchArmList s => s
  | .matchArm s => s | .matchGuard s => s | .structLit s => s | .namedFieldList s => s
  | .namedField s => s | .callExpr s => s | .indexExpr s => s | .methodCallExpr s => s
  | .fieldExpr s => s | .tryExpr s => s | .castExpr s => s | .refExpr s => s
  | .prefixExpr s => s | .rangeExpr s => s | .binExpr s => s

/-- The declared kind set of `Expr`, in declaration order. -/
def Expr.kinds : List SyntaxKind :=
  [TUPLE_EXPR, ARRAY_EXPR, PAREN_EXPR, PATH_EXPR, LAMBDA_EXPR, IF_EXPR,
   LOOP_EXPR, FOR_EXPR, WHILE_EXPR, CONTINUE_EXPR, BREAK_EXPR, LABEL,
   BLOCK_EXPR, RETURN_EXPR, MATCH_EXPR, MATCH_ARM_LIST, MATCH_ARM,
   MATCH_GUARD, STRUCT_LIT, NAMED_FIELD_LIST, NAMED_FIELD, CALL_EXPR,
   INDEX_EXPR, METHOD_CALL_EXPR, FIELD_EXPR, TRY_EXPR, CAST_EXPR,
   REF_EXPR, PREFIX_EXPR, RANGE_EXPR, BIN_EXPR]

/-- The declared kind of an `Expr` variant. -/
def Expr.variantKind : Expr → SyntaxKind
  | .tupleExpr _ => TUPLE_EXPR
  | .arrayExpr _ => ARRAY_EXPR
  | .parenExpr _ => PAREN_EXPR
  | .pathExpr _ => PATH_EXPR
  | .lambdaExpr _ => LAMBDA_EXPR
  | .ifExpr _ => IF_EXPR
  | .loopExpr _ => LOOP_EXPR
  | .forExpr _ => FOR_EXPR
  | .whileExpr _ => WHILE_EXPR
  | .continueExpr _ => CONTINUE_EXPR
  | .breakExpr _ => BREAK_EXPR
  | .label _ => LABEL
  | .blockExpr _ => BLOCK_EXPR
  | .returnExpr _ => RETURN_EXPR
  | .matchExpr _ => MATCH_EXPR
  | .matchArmList _ => MATCH_ARM_LIST
  | .matchArm _ => MATCH_ARM
  | .matchGuard _ => MATCH_GUARD
  | .structLit _ => STRUCT_LIT
  | .namedFieldList _ => NAMED_FIELD_LIST
  | .namedField _ => NAMED_FIELD
  | .callExpr _ => CALL_EXPR
  | .indexExpr _ => INDEX_EXPR
  | .methodCallExpr _ => METHOD_CALL_EXPR
  | .fieldExpr _ => FIELD_EXPR
  | .tryExpr _ => TRY_EXPR
  | .castExpr _ => CAST_EXPR
  | .refExpr _ => REF_EXPR
  | .prefixExpr _ => PREFIX_EXPR
  | .rangeExpr _ => RANGE_EXPR
  | .binExpr _ => BIN_EXPR

/-- Embedding of `TypeRef` tagged union (generated.rs). -/
inductive TypeRef where
  | parenType (stx : SyntaxNodeRef)
  | tupleType (stx : SyntaxNodeRef)
  | neverType (stx : SyntaxNodeRef)
  | pathType (stx : SyntaxNodeRef)
  | pointerType (stx : SyntaxNodeRef)
  | arrayType (stx : SyntaxNodeRef)
  | sliceType (stx : SyntaxNodeRef)
  | referenceType (stx : SyntaxNodeRef)
  | placeholderType (stx : SyntaxNodeRef)
  | fnPointerType (stx : SyntaxNodeRef)
  | forType (stx : SyntaxNodeRef)
  | implTraitType (stx : SyntaxNodeRef)
  | dynTraitType (stx : SyntaxNodeRef)
  deriving DecidableEq, Repr

/-- Embedding of `TypeRef::cast` (generated.rs). -/
def TypeRef.cast (s : SyntaxNodeRef) : Option TypeRef :=
  match s.kind with
  | PAREN_TYPE => some (.parenType s)
  | TUPLE_TYPE => some (.tupleType s)
  | NEVER_TYPE => some (.neverType s)
  | PATH_TYPE => some (.pathType s)
  | POINTER_TYPE => some (.pointerType s)
  | ARRAY_TYPE => some (.arrayType s)
  | SLICE_TYPE => some (.sliceType s)
  | REFERENCE_TYPE => some (.referenceType s)
  | PLACEHOLDER_TYPE => some (.placeholderType s)
  | FN_POINTER_TYPE => some (.fnPointerType s)
  | FOR_TYPE => some (.forType s)
  | IMPL_TRAIT_TYPE => some (.implTraitType s)
  | DYN_TRAIT_TYPE => some (.dynTraitType s)
  | _ => none

/-- Embedding of `TypeRef::syntax` (generated.rs). -/
def TypeRef.stx : TypeRef → SyntaxNodeRef
  | .parenType s => s | .tupleType s => s | .neverType s => s | .pathType s => s
  | .pointerType s => s | .arrayType s => s | .sliceType s => s
  | .referenceType s => s | .placeholderType s => s | .fnPointerType s => s
  | .forType s => s | .implTraitType s => s | .dynTraitType s => s

/-- The declared kind set of `TypeRef`, in declaration order. -/
def TypeRef.kinds : List SyntaxKind :=
  [PAREN_TYPE, TUPLE_TYPE, NEVER_TYPE, PATH_TYPE, POINTER_TYPE, ARRAY_TYPE,
   SLICE_TYPE, REFERENCE_TYPE, PLACEHOLDER_TYPE, FN_POINTER_TYPE, FOR_TYPE,
   IMPL_TRAIT_TYPE, DYN_TRAIT_TYPE]

/-- The declared kind of a `TypeRef` variant. -/
def TypeRef.variantKind : TypeRef → SyntaxKind
  | .parenType _ => PAREN_TYPE
  | .tupleType _ => TUPLE_TYPE
  | .neverType _ => NEVER_TYPE
  | .pathType _ => PATH_TYPE
  | .pointerType _ => POINTER_TYPE
  | .arrayType _ => ARRAY_TYPE
  | .sliceType _ => SLICE_TYPE
  | .referenceType _ => REFERENCE_TYPE
  | .placeholderType _ => PLACEHOLDER_TYPE
  | .fnPointerType _ => FN_POINTER_TYPE
  | .forType _ => FOR_TYPE
  | .implTraitType _ => IMPL_TRAIT_TYPE
  | .dynTraitType _ => DYN_TRAIT_TYPE

/-- Embedding of `ast::children` (ast/mod.rs): the direct children of the parent's node
whose cast to the target wrapper succeeds, in document order. -/
def childrenOfType {C : Type} (cast : SyntaxNodeRef → Option C)
    (parent : SyntaxNodeRef) : List C :=
  parent.children.filterMap cast

/-- Embedding of `ast::child_opt` (ast/mod.rs): the first direct child castable to the
target wrapper. -/
def child_opt {C : Type} (cast : SyntaxNodeRef → Option C)
    (parent : SyntaxNodeRef) : Option C :=
  (childrenOfType cast parent).head?

/-- Embedding of `NameOwner::name` (ast/mod.rs), expressed on the implementor's node. -/
def NameOwner.name (self : SyntaxNodeRef) : Option Name :=
  child_opt Name.cast self

/-- Embedding of `TypeParamsOwner::type_param_list` (ast/mod.rs). -/
def TypeParamsOwner.type_param_list (self : SyntaxNodeRef) : Option TypeParamList :=
  child_opt TypeParamList.cast self

/-- Embedding of `TypeParamsOwner::where_clause` (ast/mod.rs). -/
def TypeParamsOwner.where_clause (self : SyntaxNodeRef) : Option WhereClause :=
  child_opt WhereClause.cast self

/-- Embedding of `ImplItem::target` (ast/mod.rs): the first two direct children castable
to `TypeRef`. -/
def ImplItem.target (self : ImplItem) : Option TypeRef × Option TypeRef :=
  let types := childrenOfType TypeRef.cast self.stx
  (types.get? 0, types.get? 1)

/-- Embedding of `ImplItem::target_type` (ast/mod.rs):
`match (Some(t), None) | (_, Some(t)) => Some(t), _ => None`. -/
def ImplItem.target_type (self : ImplItem) : Option TypeRef :=
  match self.target with
  | (some t, none) => some t
  | (_, some t) => some t
  | _ => none

/-- Embedding of `ImplItem::target_trait` (ast/mod.rs):
`match (Some(t), Some(_)) => Some(t), _ => None`. -/
def ImplItem.target_trait (self : ImplItem) : Option TypeRef :=
  match self.target with
  | (some t, some _) => some t
  | _ => none

/-! ## Theorems -/

/-- The running counter starting from `b` never goes negative along `ts`. -/
def depthOkFrom (b : Int) (ts : List Token) : Prop :=
  ∀ n, 0 ≤ b + curlyDepth (ts.take n)

theorem curlyDepth_nil : curlyDepth [] = 0 := rfl

theorem curlyDepth_cons (t : Token) (ts : List Token) :
    curlyDepth (t :: ts) = curlyDelta t + curlyDepth ts := by
  simp [curlyDepth]

theorem depthOkFrom_cons (b : Int) (t : Token) (ts : List Token) :
    depthOkFrom b (t :: ts) ↔ (0 ≤ b ∧ depthOkFrom (b + curlyDelta t) ts) := by
  constructor
  · intro h
    constructor
    · simpa [curlyDepth] using h 0
    · intro n
      have h1 := h (n + 1)
      rw [List.take_succ_cons, curlyDepth_cons] at h1
      linarith
  · rintro ⟨h0, h⟩ n
    match n with
    | 0 => simpa [curlyDepth] using h0
    | m + 1 =>
      have h1 := h m
      rw [List.take_succ_cons, curlyDepth_cons]
      linarith

theorem balanceLoop_some_iff :
    ∀ (ts : List Token) (b r : Nat),
      balanceLoop ts b = some r ↔
        (depthOkFrom (b : Int) ts ∧ (r : Int) = (b : Int) + curlyDepth ts)
  | [], b, r => by
      constructor
      · intro h
        refine ⟨fun n => by simp [curlyDepth], ?_⟩
        simp [balanceLoop] at h
        simp [curlyDepth, h]
      · rintro ⟨_, h⟩
        have : r = b := by exact_mod_cast by simpa [curlyDepth] using h
        simp [balanceLoop, this]
  | t :: ts, b, r => by
      rw [depthOkFrom_cons]
      match hk : t.kind with
      | L_CURLY =>
          rw [show balanceLoop (t :: ts) b = balanceLoop ts (b + 1) by
            simp [balanceLoop, hk]]
          rw [balanceLoop_some_iff ts (b + 1) r]
          constructor
          · rintro ⟨hd, hr⟩
            refine ⟨⟨by positivity, ?_⟩, ?_⟩
            · simpa [curlyDelta, hk, Int.add_comm] using hd
            · rw [curlyDepth_cons]; push_cast at hr ⊢; simp [curlyDelta, hk]; linarith
          · rintro ⟨⟨_, hd⟩, hr⟩
            refine ⟨by simpa [curlyDelta, hk] using hd, ?_⟩
            rw [curlyDepth_cons] at hr; push_cast at hr ⊢; simp [curlyDelta, hk] at hr; linarith
      | R_CURLY =>
          match b with
          | 0 =>
              rw [show balanceLoop (t :: ts) 0 = none by simp [balanceLoop, hk]]
              constructor
              · intro h; cases h
              · rintro ⟨⟨_, hd⟩, _⟩
                have := hd 0
                simp [curlyDelta, hk, curlyDepth] at this
          | b' + 1 =>
              rw [show balanceLoop (t :: ts) (b' + 1) = balanceLoop ts b' by
                simp [balanceLoop, hk]]
              rw [balanceLoop_some_iff ts b' r]
              constructor
              · rintro ⟨hd, hr⟩
                refine ⟨⟨by positivity, ?_⟩, ?_⟩
                · intro n; have := hd n; simp [curlyDelta, hk]; linarith
                · rw [curlyDepth_cons]; push_cast at hr ⊢; simp [curlyDelta, hk]; linarith
              · rintro ⟨⟨_, hd⟩, hr⟩
                refine ⟨?_, ?_⟩
                · intro n; have := hd n; simp [curlyDelta, hk] at this; linarith
                · rw [curlyDepth_cons] at hr; push_cast at hr ⊢; simp [curlyDelta, hk] at hr; linarith
      | IDENT | WHITESPACE | SEMI | ERROR | ROOT | BLOCK | NAMED_FIELD_DEF_LIST
      | FN_DEF | IMPL_ITEM | NAME | NAME_REF | TYPE_PARAM_LIST | WHERE_CLAUSE
      | ATTR | TOKEN_TREE | STRUCT_DEF | ENUM_DEF | TUPLE_EXPR | ARRAY_EXPR
      | PAREN_EXPR | PATH_EXPR | LAMBDA_EXPR | IF_EXPR | LOOP_EXPR | FOR_EXPR
      | WHILE_EXPR | CONTINUE_EXPR | BREAK_EXPR | LABEL | BLOCK_EXPR
      | RETURN_EXPR | MATCH_EXPR | MATCH_ARM_LIST | MATCH_ARM | MATCH_GUARD
      | STRUCT_LIT | NAMED_FIELD_LIST | NAMED_FIELD | CALL_EXPR | INDEX_EXPR
      | METHOD_CALL_EXPR | FIELD_EXPR | TRY_EXPR | CAST_EXPR | REF_EXPR
      | PREFIX_EXPR | RANGE_EXPR | BIN_EXPR | PAREN_TYPE | TUPLE_TYPE
      | NEVER_TYPE | PATH_TYPE | POINTER_TYPE | ARRAY_TYPE | SLICE_TYPE
      | REFERENCE_TYPE | PLACEHOLDER_TYPE | FN_POINTER_TYPE | FOR_TYPE
      | IMPL_TRAIT_TYPE | DYN_TRAIT_TYPE =>
          rw [show balanceLoop (t :: ts) b = balanceLoop ts b by
            simp [balanceLoop, hk]]
          rw [balanceLoop_some_iff ts b r]
          constructor
          · rintro ⟨hd, hr⟩
            refine ⟨⟨by positivity, by simpa [curlyDelta, hk] using hd⟩, ?_⟩
            rw [curlyDepth_cons]; simp [curlyDelta, hk]; linarith
          · rintro ⟨⟨_, hd⟩, hr⟩
            refine ⟨by simpa [curlyDelta, hk] using hd, ?_⟩
            rw [curlyDepth_cons] at hr; simp [curlyDelta, hk] at hr; linarith

example : is_balanced [⟨L_CURLY, 1⟩, ⟨IDENT, 1⟩, ⟨R_CURLY, 1⟩] = true := by decide

example : is_balanced [⟨L_CURLY, 1⟩, ⟨R_CURLY, 1⟩, ⟨R_CURLY, 1⟩, ⟨L_CURLY, 1⟩,
    ⟨R_CURLY, 1⟩] = false := by decide

example : is_balanced [] = false := by decide

/-- C4: `is_balanced(tokens)` returns true if and only if the token sequence
is non-empty, its first token is a left curly brace, its last token is a
right curly brace, and a running nesting-depth counter over curly-brace
tokens never goes negative and is exactly zero after the last token. -/
theorem is_balanced_characterization (tokens : List Token) :
    is_balanced tokens = true ↔
      (tokens ≠ [] ∧
       tokens.head?.map Token.kind = some L_CURLY ∧
       tokens.getLast?.map Token.kind = some R_CURLY ∧
       (∀ n, 0 ≤ curlyDepth (tokens.take n)) ∧
       curlyDepth tokens = 0) := by
  unfold is_balanced
  by_cases hguard : tokens.length = 0 ∨
      tokens.head?.map Token.kind ≠ some L_CURLY ∨
      tokens.getLast?.map Token.kind ≠ some R_CURLY
  · rw [if_pos hguard]
    simp only [Bool.false_eq_true, false_iff]
    rintro ⟨h1, h2, h3, _, _⟩
    rcases hguard with h | h | h
    · exact h1 (List.length_eq_zero.mp h)
    · exact h h2
    · exact h h3
  · rw [if_neg hguard]
    push_neg at hguard
    obtain ⟨h1, h2, h3⟩ := hguard
    have hne : tokens ≠ [] := by
      intro h
      subst h
      simp at h1
    rcases hbl : balanceLoop tokens 0 with _ | b
    · simp only [Bool.false_eq_true, false_iff]
      rintro ⟨_, _, _, hd, hz⟩
      have hsome : balanceLoop tokens 0 = some 0 := by
        rw [balanceLoop_some_iff]
        exact ⟨fun n => by simpa using hd n, by simp [hz]⟩
      rw [hbl] at hsome
      cases hsome
    · rw [balanceLoop_some_iff] at hbl
      obtain ⟨hd, hr⟩ := hbl
      simp only [decide_eq_true_eq]
      constructor
      · intro hb0
        subst hb0
        refine ⟨hne, h2, h3, fun n => by simpa using hd n, ?_⟩
        simpa using hr.symm
      · rintro ⟨_, _, _, _, hz⟩
        rw [hz] at hr
        exact_mod_cast hr

theorem GreenNode.textList_append (a b : List GreenNode) :
    GreenNode.textList (a ++ b) = GreenNode.textList a ++ GreenNode.textList b := by
  induction a with
  | nil => simp [GreenNode.textList]
  | cons c cs ih => simp [GreenNode.textList, ih]

/-- Text already committed to the unfinished builder frames: the bottom
frames' children come first in the final tree, each frame's children list
being held in reverse. -/
def stackText : List (SyntaxKind × List GreenNode) → List Char
  | [] => []
  | (_, cs) :: rest => stackText rest ++ GreenNode.textList cs.reverse

/-- Builder invariant: the text of a tree materialized from the remaining
events is the committed frame text followed by the remaining token texts. -/
theorem buildLoop_text :
    ∀ (es : List Event) (stack : List (SyntaxKind × List GreenNode))
      (errs : List SyntaxError) (g : GreenNode) (e : List SyntaxError),
      buildLoop es stack errs = some (g, e) →
      g.text = stackText stack ++ eventsTokenText es
  | [], _, _, _, _ => by intro h; cases h
  | .startNode k :: es, stack, errs, g, e => by
      intro h
      have ih := buildLoop_text es ((k, []) :: stack) errs g e h
      simpa [stackText, GreenNode.textList, eventsTokenText] using ih
  | .token k t :: es, [], errs, g, e => by intro h; cases h
  | .token k t :: es, (fk, cs) :: rest, errs, g, e => by
      intro h
      have ih := buildLoop_text es ((fk, .leaf k t :: cs) :: rest) errs g e h
      rw [ih]
      simp [stackText, eventsTokenText, GreenNode.textList_append, GreenNode.textList,
        GreenNode.text]
  | .error m :: es, stack, errs, g, e => by
      intro h
      exact buildLoop_text es stack (errs ++ [m]) g e h
  | .finishNode :: es, [], errs, g, e => by intro h; cases h
  | .finishNode :: es, [(k, cs)], errs, g, e => by
      intro h
      match es, h with
      | [], h =>
          have : g = .node k cs.reverse := by
            have h2 := congrArg (Option.map Prod.fst) h
            simp [buildLoop] at h2
            exact h2.symm
          rw [this]
          simp [GreenNode.text, stackText, eventsTokenText]
  | .finishNode :: es, (k, cs) :: (k2, cs2) :: rest, errs, g, e => by
      intro h
      have ih := buildLoop_text es ((k2, .node k cs.reverse :: cs2) :: rest) errs g e h
      rw [ih]
      simp [stackText, eventsTokenText, GreenNode.textList_append, GreenNode.textList,
        GreenNode.text]

/-- Losslessness of `parse` for a conforming grammar: the parsed tree's full
text is the input text. -/
theorem parse_text (grammar : List Char → List Event) (h : GrammarOk grammar)
    (T : List Char) : (File.parse grammar T).text = T := by
  obtain ⟨hsome, hcover⟩ := h T
  unfold File.parse
  rcases hb : build (grammar T) with _ | ⟨g, e⟩
  · rw [hb] at hsome; cases hsome
  · have := buildLoop_text (grammar T) [] [] g e hb
    simpa [File.text, stackText, hcover] using this

/-- The source's `incremental_reparse` never succeeds: after finding a
reparsable node and checking token balance it returns `None` on every path
(its final expression is `None`). -/
theorem incremental_reparse_eq_none (tokenize : List Char → List Token)
    (f : File) (edit : AtomEdit) :
    File.incremental_reparse tokenize f edit = none := by
  unfold File.incremental_reparse
  rcases find_reparsable_node f.stx edit.delete with _ | ⟨node, r⟩
  · rfl
  · simp only
    split
    · rfl
    · rfl

/-- Consequently `reparse` always falls back to a full reparse. -/
theorem reparse_eq_full_reparse (grammar : List Char → List Event)
    (tokenize : List Char → List Token) (f : File) (edit : AtomEdit) :
    File.reparse grammar tokenize f edit = File.full_reparse grammar f edit := by
  unfold File.reparse
  rw [incremental_reparse_eq_none]

mutual

/-- The leaf token texts of a green subtree, in document order. -/
def GreenNode.leafTexts : GreenNode → List (List Char)
  | .leaf _ t => [t]
  | .node _ cs => GreenNode.leafTextsList cs

/-- The leaf token texts of a list of sibling subtrees, in document order. -/
def GreenNode.leafTextsList : List GreenNode → List (List Char)
  | [] => []
  | c :: cs => GreenNode.leafTexts c ++ GreenNode.leafTextsList cs

end

mutual

theorem GreenNode.flatten_leafTexts : ∀ g : GreenNode, (GreenNode.leafTexts g).flatten = g.text
  | .leaf k t => by simp [GreenNode.leafTexts, GreenNode.text]
  | .node k cs => by
      simp only [GreenNode.leafTexts, GreenNode.text]
      exact GreenNode.flatten_leafTextsList cs

theorem GreenNode.flatten_leafTextsList :
    ∀ cs : List GreenNode, (GreenNode.leafTextsList cs).flatten = GreenNode.textList cs
  | [] => by simp [GreenNode.leafTextsList, GreenNode.textList]
  | c :: cs => by
      simp only [GreenNode.leafTextsList, GreenNode.textList, List.flatten_append]
      rw [GreenNode.flatten_leafTexts c, GreenNode.flatten_leafTextsList cs]

end

/-- A minimal conforming grammar, used to instantiate the grammar-dependent
theorems on concrete inputs: wrap the whole input text in a single `ROOT`
node holding one `IDENT` token. -/
def wholeTokenGrammar (t : List Char) : List Event :=
  [.startNode ROOT, .token IDENT t, .finishNode]

theorem wholeTokenGrammar_ok : GrammarOk wholeTokenGrammar := by
  intro t
  constructor
  · simp [build, buildLoop, wholeTokenGrammar]
  · simp [eventsTokenText, wholeTokenGrammar]

/-- C1: for every input text `T`, under the spec's guarantees on the external
tokenizer+grammar (`GrammarOk`: the event stream materializes into a tree
and its token events cover the input exactly), concatenating the leaf token
texts of the tree produced by `File::parse T`, in document order, yields
exactly `T` — including for malformed `T`, since a conforming grammar
produces a tree for every input. -/
theorem parse_round_trip (grammar : List Char → List Event)
    (h : GrammarOk grammar) (T : List Char) :
    ((File.parse grammar T).root.leafTexts).flatten = T := by
  rw [GreenNode.flatten_leafTexts]
  exact parse_text grammar h T

/-- Witness for C1 at the (malformed) input `"{a"`. -/
theorem parse_round_trip_witness :
    ((File.parse wholeTokenGrammar ['{', 'a']).root.leafTexts).flatten = ['{', 'a'] :=
  parse_round_trip wholeTokenGrammar wholeTokenGrammar_ok ['{', 'a']

/-- C2: for every text `T` and edit `e`, under the spec's guarantees on the
external grammar, the full text of `parse(T).reparse(e)`'s tree equals
`replace_range T e.delete e.insert`, i.e. the edit applied to `T` as a plain
string operation. -/
theorem reparse_applies_edit (grammar : List Char → List Event)
    (tokenize : List Char → List Token) (h : GrammarOk grammar)
    (T : List Char) (e : AtomEdit) :
    (File.reparse grammar tokenize (File.parse grammar T) e).text =
      replace_range T e.delete e.insert := by
  rw [reparse_eq_full_reparse]
  unfold File.full_reparse
  rw [parse_text grammar h]
  rw [parse_text grammar h]

/-- Witness for C2: replacing `"b"` by `"xy"` inside `"abc"`. -/
theorem reparse_applies_edit_witness :
    (File.reparse wholeTokenGrammar (fun _ => [])
        (File.parse wholeTokenGrammar ['a', 'b', 'c']) ⟨⟨1, 2⟩, ['x', 'y']⟩).text =
      ['a', 'x', 'y', 'c'] := by
  have h := reparse_applies_edit wholeTokenGrammar (fun _ => [])
    wholeTokenGrammar_ok ['a', 'b', 'c'] ⟨⟨1, 2⟩, ['x', 'y']⟩
  simpa [replace_range] using h

/-- C3: for every `File` and edit, the incrementally-reparsed tree is
*exactly* the full reparse of the edited text (the source's incremental path
always returns `None`, so the fallback is taken unconditionally — never a
tree mixing old and new subtrees); in particular the preorder kind sequence
of `reparse`'s tree equals that of `File::parse` applied to the fully edited
text. -/
theorem reparse_kind_shape (grammar : List Char → List Event)
    (tokenize : List Char → List Token) (f : File) (e : AtomEdit) :
    File.reparse grammar tokenize f e = File.full_reparse grammar f e ∧
    preorderKinds (File.reparse grammar tokenize f e).stx =
      preorderKinds
        (File.parse grammar (replace_range (File.text f) e.delete e.insert)).stx := by
  refine ⟨reparse_eq_full_reparse grammar tokenize f e, ?_⟩
  rw [reparse_eq_full_reparse]
  rfl

/-- The embedding of the method call `f.reparse(edit)` through `&self`: the
result paired with the receiver after the call.  The receiver is passed by
shared reference and has no write path, so the embedding is a pure function
and the receiver after the call is the same value. -/
def File.reparseCall (grammar : List Char → List Event)
    (tokenize : List Char → List Token) (f : File) (e : AtomEdit) : File × File :=
  (File.reparse grammar tokenize f e, f)

/-- C9: `f.reparse(e)` returns a new `File` value — built by a full parse of
the edited text, and depending on the receiver only through its text, hence
sharing no state with it — and leaves the receiver unchanged: after the call
the receiver's tree, full text and diagnostics are identical to before. -/
theorem reparse_receiver_unchanged (grammar : List Char → List Event)
    (tokenize : List Char → List Token) (f : File) (e : AtomEdit) :
    ((File.reparseCall grammar tokenize f e).2.root = f.root ∧
     (File.reparseCall grammar tokenize f e).2.text = f.text ∧
     (File.reparseCall grammar tokenize f e).2.errorsOut = f.errorsOut) ∧
    (File.reparseCall grammar tokenize f e).1 =
      File.parse grammar (replace_range (File.text f) e.delete e.insert) ∧
    (∀ g : File, File.text g = File.text f →
      (File.reparseCall grammar tokenize g e).1 =
        (File.reparseCall grammar tokenize f e).1) := by
  refine ⟨⟨rfl, rfl, rfl⟩, ?_, ?_⟩
  · show File.reparse grammar tokenize f e = _
    rw [reparse_eq_full_reparse]
    rfl
  · intro g hg
    show File.reparse grammar tokenize g e = File.reparse grammar tokenize f e
    rw [reparse_eq_full_reparse, reparse_eq_full_reparse]
    unfold File.full_reparse
    rw [hg]

/-- Witness for C9: two different files with the same text `"ab"`; the
receiver is unchanged and the results agree. -/
theorem reparse_receiver_unchanged_witness :
    ((File.reparseCall wholeTokenGrammar (fun _ => [])
        ⟨.node ROOT [.leaf IDENT ['a', 'b']], []⟩ ⟨⟨0, 1⟩, []⟩).2.root =
      GreenNode.node ROOT [.leaf IDENT ['a', 'b']]) ∧
    ((File.reparseCall wholeTokenGrammar (fun _ => [])
        ⟨.leaf IDENT ['a', 'b'], []⟩ ⟨⟨0, 1⟩, []⟩).1 =
      (File.reparseCall wholeTokenGrammar (fun _ => [])
        ⟨.node ROOT [.leaf IDENT ['a', 'b']], []⟩ ⟨⟨0, 1⟩, []⟩).1) := by
  have h := reparse_receiver_unchanged wholeTokenGrammar (fun _ => [])
    ⟨.node ROOT [.leaf IDENT ['a', 'b']], []⟩ ⟨⟨0, 1⟩, []⟩
  exact ⟨h.1.1, h.2.2 ⟨.leaf IDENT ['a', 'b'], []⟩ rfl⟩

/-- C6: every embedded wrapper's `cast` succeeds exactly on its declared kind
set; when it succeeds, `syntax()` returns exactly the node that was cast; and
for the tagged unions the produced variant is determined by the node's kind
and the declared kind sets are duplicate-free, so at most one variant ever
matches a given node. -/
theorem cast_kind_sets :
    (∀ n : SyntaxNodeRef, (Expr.cast n).isSome ↔ n.kind ∈ Expr.kinds) ∧
    (∀ (n : SyntaxNodeRef) (e : Expr), Expr.cast n = some e →
      e.stx = n ∧ e.variantKind = n.kind) ∧
    Expr.kinds.Nodup ∧
    (∀ n : SyntaxNodeRef, (TypeRef.cast n).isSome ↔ n.kind ∈ TypeRef.kinds) ∧
    (∀ (n : SyntaxNodeRef) (t : TypeRef), TypeRef.cast n = some t →
      t.stx = n ∧ t.variantKind = n.kind) ∧
    TypeRef.kinds.Nodup ∧
    (∀ n : SyntaxNodeRef, (NominalDef.cast n).isSome ↔ n.kind ∈ NominalDef.kinds) ∧
    (∀ (n : SyntaxNodeRef) (d : NominalDef), NominalDef.cast n = some d →
      d.stx = n ∧ d.variantKind = n.kind) ∧
    NominalDef.kinds.Nodup ∧
    (∀ n : SyntaxNodeRef, (FnDef.cast n).isSome ↔ n.kind = FN_DEF) ∧
    (∀ (n : SyntaxNodeRef) (d : FnDef), FnDef.cast n = some d → d.stx = n) := by
  refine ⟨?_, ?_, by decide, ?_, ?_, by decide, ?_, ?_, by decide, ?_, ?_⟩
  · intro n
    cases hk : n.kind <;> simp [Expr.cast, hk, Expr.kinds]
  · intro n e h
    cases hk : n.kind <;> rw [Expr.cast, hk] at h <;> simp at h <;>
      simp [← h, Expr.stx, Expr.variantKind, hk]
  · intro n
    cases hk : n.kind <;> simp [TypeRef.cast, hk, TypeRef.kinds]
  · intro n t h
    cases hk : n.kind <;> rw [TypeRef.cast, hk] at h <;> simp at h <;>
      simp [← h, TypeRef.stx, TypeRef.variantKind, hk]
  · intro n
    cases hk : n.kind <;> simp [NominalDef.cast, hk, NominalDef.kinds]
  · intro n d h
    cases hk : n.kind <;> rw [NominalDef.cast, hk] at h <;> simp at h <;>
      simp [← h, NominalDef.stx, NominalDef.variantKind, hk]
  · intro n
    cases hk : n.kind <;> simp [FnDef.cast, hk]
  · intro n d h
    cases hk : n.kind <;> rw [FnDef.cast, hk] at h
    case FN_DEF =>
      simp at h
      simp [← h]
    all_goals simp_all

/-- Witness for C6 at a `BIN_EXPR` node and an `FN_DEF` node. -/
theorem cast_kind_sets_witness :
    (Expr.cast ⟨.node BIN_EXPR [], []⟩).isSome ∧
    (Expr.binExpr ⟨.node BIN_EXPR [], []⟩).stx = (⟨.node BIN_EXPR [], []⟩ : SyntaxNodeRef) ∧
    (Expr.binExpr ⟨.node BIN_EXPR [], []⟩).variantKind =
      SyntaxNodeRef.kind ⟨.node BIN_EXPR [], []⟩ ∧
    (FnDef.mk ⟨.node FN_DEF [], []⟩).stx = (⟨.node FN_DEF [], []⟩ : SyntaxNodeRef) := by
  have h := cast_kind_sets
  refine ⟨(h.1 ⟨.node BIN_EXPR [], []⟩).mpr (by decide), ?_, ?_, ?_⟩
  · exact (h.2.1 ⟨.node BIN_EXPR [], []⟩ (Expr.binExpr ⟨.node BIN_EXPR [], []⟩) rfl).1
  · exact (h.2.1 ⟨.node BIN_EXPR [], []⟩ (Expr.binExpr ⟨.node BIN_EXPR [], []⟩) rfl).2
  · exact h.2.2.2.2.2.2.2.2.2.2 ⟨.node FN_DEF [], []⟩ (FnDef.mk ⟨.node FN_DEF [], []⟩) rfl

section CapabilityScan

variable {C : Type} (cast : SyntaxNodeRef → Option C) (toNode : C → SyntaxNodeRef)
variable (k : SyntaxKind)

/-- The first-successful-cast scan over a node list succeeds iff some listed
node has the wrapper's kind. -/
theorem filterMap_head_isSome
    (h1 : ∀ m, (cast m).isSome ↔ m.kind = k) :
    ∀ l : List SyntaxNodeRef,
      ((l.filterMap cast).head?).isSome ↔ ∃ c ∈ l, c.kind = k
  | [] => by simp
  | c :: l => by
      rcases hc : cast c with _ | w
      · have hck : ¬ c.kind = k := by
          rw [← h1 c, hc]
          simp
        rw [List.filterMap_cons, hc, filterMap_head_isSome h1 l]
        constructor
        · rintro ⟨x, hx, hk2⟩
          exact ⟨x, List.mem_cons_of_mem _ hx, hk2⟩
        · rintro ⟨x, hx, hk2⟩
          rcases List.mem_cons.mp hx with rfl | hx
          · exact absurd hk2 hck
          · exact ⟨x, hx, hk2⟩
      · have hck : c.kind = k := by
          rw [← h1 c, hc]
          rfl
        rw [List.filterMap_cons, hc]
        simp only [List.head?_cons, Option.isSome_some, true_iff]
        exact ⟨c, by simp, hck⟩

/-- When the scan returns a value, it wraps the first listed node of the
wrapper's kind. -/
theorem filterMap_head_first
    (h1 : ∀ m, (cast m).isSome ↔ m.kind = k)
    (h2 : ∀ m w, cast m = some w → toNode w = m) :
    ∀ (l : List SyntaxNodeRef) (w : C),
      (l.filterMap cast).head? = some w →
      (toNode w).kind = k ∧
        ∃ l1 l2, l = l1 ++ toNode w :: l2 ∧ ∀ c ∈ l1, c.kind ≠ k
  | [], w => by simp
  | c :: l, w => by
      intro h
      rcases hc : cast c with _ | w'
      · rw [List.filterMap_cons, hc] at h
        obtain ⟨hk, l1, l2, heq, hnone⟩ := filterMap_head_first h1 h2 l w h
        have hck : ¬ c.kind = k := by
          rw [← h1 c, hc]
          simp
        refine ⟨hk, c :: l1, l2, by simp [heq], ?_⟩
        intro x hx
        rcases List.mem_cons.mp hx with rfl | hx
        · exact hck
        · exact hnone x hx
      · rw [List.filterMap_cons, hc] at h
        simp only [List.head?_cons, Option.some_inj] at h
        subst h
        have hn := h2 c w' hc
        have hck : c.kind = k := by
          rw [← h1 c, hc]
          rfl
        exact ⟨by rw [hn]; exact hck, [], l, by simp [hn], by simp⟩

end CapabilityScan

/-- C7: the capability accessors (`NameOwner::name`,
`TypeParamsOwner::type_param_list`, `TypeParamsOwner::where_clause`) return
a value exactly when a direct child of the expected kind is present, and the
value wraps the *first* such direct child in order; absence yields `none`
(the accessor is total), and the scan inspects only direct children. -/
theorem capability_accessors (n : SyntaxNodeRef) :
    ((NameOwner.name n).isSome ↔ ∃ c ∈ n.children, c.kind = NAME) ∧
    (∀ w : Name, NameOwner.name n = some w →
      w.stx.kind = NAME ∧
        ∃ l1 l2, n.children = l1 ++ w.stx :: l2 ∧ ∀ c ∈ l1, c.kind ≠ NAME) ∧
    ((TypeParamsOwner.type_param_list n).isSome ↔
      ∃ c ∈ n.children, c.kind = TYPE_PARAM_LIST) ∧
    (∀ w : TypeParamList, TypeParamsOwner.type_param_list n = some w →
      w.stx.kind = TYPE_PARAM_LIST ∧
        ∃ l1 l2, n.children = l1 ++ w.stx :: l2 ∧
          ∀ c ∈ l1, c.kind ≠ TYPE_PARAM_LIST) ∧
    ((TypeParamsOwner.where_clause n).isSome ↔
      ∃ c ∈ n.children, c.kind = WHERE_CLAUSE) ∧
    (∀ w : WhereClause, TypeParamsOwner.where_clause n = some w →
      w.stx.kind = WHERE_CLAUSE ∧
        ∃ l1 l2, n.children = l1 ++ w.stx :: l2 ∧ ∀ c ∈ l1, c.kind ≠ WHERE_CLAUSE) := by
  have hname1 : ∀ m : SyntaxNodeRef, (Name.cast m).isSome ↔ m.kind = NAME := by
    intro m
    cases hk : m.kind <;> simp [Name.cast, hk]
  have hname2 : ∀ (m : SyntaxNodeRef) (w : Name), Name.cast m = some w → w.stx = m := by
    intro m w h
    cases hk : m.kind <;> rw [Name.cast, hk] at h
    case NAME =>
      simp at h
      simp [← h]
    all_goals simp_all
  have htpl1 : ∀ m : SyntaxNodeRef,
      (TypeParamList.cast m).isSome ↔ m.kind = TYPE_PARAM_LIST := by
    intro m
    cases hk : m.kind <;> simp [TypeParamList.cast, hk]
  have htpl2 : ∀ (m : SyntaxNodeRef) (w : TypeParamList),
      TypeParamList.cast m = some w → w.stx = m := by
    intro m w h
    cases hk : m.kind <;> rw [TypeParamList.cast, hk] at h
    case TYPE_PARAM_LIST =>
      simp at h
      simp [← h]
    all_goals simp_all
  have hwc1 : ∀ m : SyntaxNodeRef,
      (WhereClause.cast m).isSome ↔ m.kind = WHERE_CLAUSE := by
    intro m
    cases hk : m.kind <;> simp [WhereClause.cast, hk]
  have hwc2 : ∀ (m : SyntaxNodeRef) (w : WhereClause),
      WhereClause.cast m = some w → w.stx = m := by
    intro m w h
    cases hk : m.kind <;> rw [WhereClause.cast, hk] at h
    case WHERE_CLAUSE =>
      simp at h
      simp [← h]
    all_goals simp_all
  refine ⟨?_, ?_, ?_, ?_, ?_, ?_⟩
  · exact filterMap_head_isSome Name.cast NAME hname1 n.children
  · exact fun w => filterMap_head_first Name.cast Name.stx NAME hname1 hname2 n.children w
  · exact filterMap_head_isSome TypeParamList.cast TYPE_PARAM_LIST htpl1 n.children
  · exact fun w =>
      filterMap_head_first TypeParamList.cast TypeParamList.stx TYPE_PARAM_LIST
        htpl1 htpl2 n.children w
  · exact filterMap_head_isSome WhereClause.cast WHERE_CLAUSE hwc1 n.children
  · exact fun w =>
      filterMap_head_first WhereClause.cast WhereClause.stx WHERE_CLAUSE
        hwc1 hwc2 n.children w

/-- A concrete parent node (an `FN_DEF` whose second child is a `NAME`) used
to instantiate the capability-accessor theorem. -/
def capParent : SyntaxNodeRef :=
  ⟨.node FN_DEF [.leaf WHITESPACE [' '], .node NAME [.leaf IDENT ['f']]], []⟩

/-- Witness for C7: on `capParent`, `name` returns the `NAME` child at index
1, preceded only by non-`NAME` children. -/
theorem capability_accessors_witness :
    (NameOwner.name capParent).isSome ∧
    (Name.mk ⟨capParent.root, [1]⟩).stx.kind = NAME ∧
    (∃ l1 l2, capParent.children = l1 ++ (Name.mk ⟨capParent.root, [1]⟩).stx :: l2 ∧
      ∀ c ∈ l1, c.kind ≠ NAME) := by
  have h := capability_accessors capParent
  have h2 := h.2.1 (Name.mk ⟨capParent.root, [1]⟩) (by decide)
  exact ⟨(h.1).mpr ⟨⟨capParent.root, [1]⟩, by decide, by decide⟩, h2.1, h2.2⟩

/-- C10: on every `ImplItem`, with `cs` the direct children castable to
`TypeRef` in document order, `target_trait` is the first element of `cs`
exactly when `cs` has at least two elements (and `none` otherwise), and
`target_type` is the second element when `cs` has at least two, the first
when it has exactly one, and `none` when it has none. -/
theorem implItem_target_characterization (self : ImplItem) :
    (ImplItem.target_trait self =
      if 2 ≤ (childrenOfType TypeRef.cast self.stx).length
      then (childrenOfType TypeRef.cast self.stx).get? 0
      else none) ∧
    (ImplItem.target_type self =
      if 2 ≤ (childrenOfType TypeRef.cast self.stx).length
      then (childrenOfType TypeRef.cast self.stx).get? 1
      else (childrenOfType TypeRef.cast self.stx).get? 0) := by
  unfold ImplItem.target_trait ImplItem.target_type ImplItem.target
  rcases hl : childrenOfType TypeRef.cast self.stx with _ | ⟨a, _ | ⟨b, rest⟩⟩ <;>
    simp

theorem reparser_eq_none_iff (k : SyntaxKind) :
    reparser k = none ↔ (k ≠ BLOCK ∧ k ≠ NAMED_FIELD_DEF_LIST) := by
  cases k <;> simp [reparser]

theorem reparsableScan_none :
    ∀ l : List SyntaxNodeRef,
      ((l.filterMap fun a => (reparser a.kind).map fun r => (a, r)).head? = none ↔
        ∀ a ∈ l, reparser a.kind = none)
  | [] => by simp
  | a :: l => by
      rcases hr : reparser a.kind with _ | r
      · rw [List.filterMap_cons]
        simp only [hr, Option.map_none']
        rw [reparsableScan_none l]
        constructor
        · intro h x hx
          rcases List.mem_cons.mp hx with rfl | hx
          · exact hr
          · exact h x hx
        · intro h x hx
          exact h x (List.mem_cons_of_mem _ hx)
      · rw [List.filterMap_cons]
        simp only [hr, Option.map_some']
        constructor
        · intro h
          simp at h
        · intro h
          have ha := h a (by simp)
          rw [hr] at ha
          cases ha

theorem reparsableScan_some :
    ∀ (l : List SyntaxNodeRef) (nd : SyntaxNodeRef) (r : ReparseEntry),
      (l.filterMap fun a => (reparser a.kind).map fun r => (a, r)).head? =
          some (nd, r) →
      reparser nd.kind = some r ∧
        ∃ l1 l2, l = l1 ++ nd :: l2 ∧ ∀ a ∈ l1, reparser a.kind = none
  | [], nd, r => by simp
  | a :: l, nd, r => by
      intro h
      rcases hr : reparser a.kind with _ | r'
      · rw [List.filterMap_cons] at h
        simp only [hr, Option.map_none'] at h
        obtain ⟨h1, l1, l2, heq, hn⟩ := reparsableScan_some l nd r h
        refine ⟨h1, a :: l1, l2, by simp [heq], ?_⟩
        intro x hx
        rcases List.mem_cons.mp hx with rfl | hx
        · exact hr
        · exact hn x hx
      · rw [List.filterMap_cons] at h
        simp only [hr, Option.map_some', List.head?_cons, Option.some_inj] at h
        injection h with h1 h2
        subst h1
        subst h2
        exact ⟨hr, [], l, by simp, by simp⟩

theorem pathAncestors_head : ∀ p : List Nat, (pathAncestors p).head? = some p := by
  intro p
  induction p with
  | nil => rfl
  | cons i rest ih =>
      unfold pathAncestors at ih ⊢
      rw [pathPrefixes, List.reverse_cons, List.head?_append]
      rw [← List.map_reverse, List.head?_map, ih]
      rfl

/-- The ancestor chain starts at the node itself. -/
theorem ancestors_head (n : SyntaxNodeRef) : (ancestors n).head? = some n := by
  unfold ancestors
  rw [List.head?_map, pathAncestors_head]
  rfl

/-- C5: `find_reparsable_node` starts its ancestor walk at the covering node
of the delete range, returns the first ancestor whose kind is in the fixed
reparsable set `{BLOCK, NAMED_FIELD_DEF_LIST}` paired with that kind's
dedicated grammar entry point, and returns `none` exactly when no ancestor
up to and including the root has such a kind. -/
theorem find_reparsable_node_characterization (root : SyntaxNodeRef)
    (range : TextRange) :
    ((ancestors (find_covering_node root range)).head? =
      some (find_covering_node root range)) ∧
    (find_reparsable_node root range = none ↔
      ∀ a ∈ ancestors (find_covering_node root range),
        a.kind ≠ BLOCK ∧ a.kind ≠ NAMED_FIELD_DEF_LIST) ∧
    (∀ (nd : SyntaxNodeRef) (r : ReparseEntry),
      find_reparsable_node root range = some (nd, r) →
      ((nd.kind = BLOCK ∧ r = .block) ∨
        (nd.kind = NAMED_FIELD_DEF_LIST ∧ r = .named_field_def_list)) ∧
      ∃ l1 l2, ancestors (find_covering_node root range) = l1 ++ nd :: l2 ∧
        ∀ a ∈ l1, a.kind ≠ BLOCK ∧ a.kind ≠ NAMED_FIELD_DEF_LIST) := by
  refine ⟨ancestors_head _, ?_, ?_⟩
  · unfold find_reparsable_node
    rw [← Option.not_isSome_iff_eq_none, Option.isSome_iff_ne_none, not_not]
    rw [reparsableScan_none]
    constructor
    · intro h a ha
      rw [← reparser_eq_none_iff]
      exact h a ha
    · intro h a ha
      rw [reparser_eq_none_iff]
      exact h a ha
  · intro nd r h
    unfold find_reparsable_node at h
    obtain ⟨h1, l1, l2, heq, hn⟩ := reparsableScan_some _ nd r h
    refine ⟨?_, l1, l2, heq, ?_⟩
    · rcases hk : nd.kind <;> rw [hk] at h1 <;> simp [reparser] at h1 <;>
        simp [h1]
    · intro a ha
      rw [← reparser_eq_none_iff]
      exact hn a ha

/-- A concrete tree (a `BLOCK` inside an `FN_DEF` inside the root) used to
instantiate the reparsable-node search. -/
def reparseDemoRoot : SyntaxNodeRef :=
  ⟨.node ROOT [.node FN_DEF [.node BLOCK [.leaf L_CURLY ['{'], .leaf R_CURLY ['}']]]], []⟩

/-- Witness for C5: on `reparseDemoRoot` with the empty range at offset 1,
the search returns the `BLOCK` ancestor with the block entry point. -/
theorem find_reparsable_node_characterization_witness :
    ((SyntaxNodeRef.kind ⟨reparseDemoRoot.root, [0, 0]⟩ = BLOCK ∧
        ReparseEntry.block = ReparseEntry.block) ∨
      (SyntaxNodeRef.kind ⟨reparseDemoRoot.root, [0, 0]⟩ = NAMED_FIELD_DEF_LIST ∧
        ReparseEntry.block = ReparseEntry.named_field_def_list)) ∧
    ∃ l1 l2,
      ancestors (find_covering_node reparseDemoRoot ⟨1, 1⟩) =
        l1 ++ (⟨reparseDemoRoot.root, [0, 0]⟩ : SyntaxNodeRef) :: l2 ∧
      ∀ a ∈ l1, a.kind ≠ BLOCK ∧ a.kind ≠ NAMED_FIELD_DEF_LIST :=
  (find_reparsable_node_characterization reparseDemoRoot ⟨1, 1⟩).2.2
    ⟨reparseDemoRoot.root, [0, 0]⟩ .block (by decide)

theorem validateLoop_iff :
    ∀ (ns stack : List SyntaxNodeRef),
      validateLoop ns stack = true ↔
        ∀ q ∈ bracePairs ns stack,
          q.1.parent = q.2.parent ∧ q.1.next_sibling = none ∧ q.2.prev_sibling = none
  | [], stack => by simp [validateLoop, bracePairs]
  | n :: ns, stack => by
      cases hk : n.kind
      case L_CURLY =>
        simp only [validateLoop, bracePairs, hk]
        exact validateLoop_iff ns (n :: stack)
      case R_CURLY =>
        match stack with
        | [] =>
            simp only [validateLoop, bracePairs, hk]
            exact validateLoop_iff ns []
        | p :: s' =>
            simp only [validateLoop, bracePairs, hk]
            rw [Bool.and_eq_true, Bool.and_eq_true, Bool.and_eq_true,
              validateLoop_iff ns s', List.forall_mem_cons]
            simp [Option.isNone_iff_eq_none, and_assoc]
      all_goals
        simp only [validateLoop, bracePairs, hk]
        exact validateLoop_iff ns stack

/-- C8 counterexample: a tree whose preorder contains an `L_CURLY` token and
no `R_CURLY` token has a dangling unmatched brace, yet the debug
`validate_block_structure` fires no assertion (it returns cleanly): unmatched
braces are silently skipped, contradicting the claim that every violation —
including a dangling unmatched brace — triggers a fatal assertion. -/
theorem validate_dangling_brace_counterexample :
    validate_block_structure ⟨.node ROOT [.leaf L_CURLY ['{']], []⟩ = true ∧
    (∃ n ∈ preorder (⟨.node ROOT [.leaf L_CURLY ['{']], []⟩ : SyntaxNodeRef),
      n.kind = L_CURLY) ∧
    (∀ n ∈ preorder (⟨.node ROOT [.leaf L_CURLY ['{']], []⟩ : SyntaxNodeRef),
      n.kind ≠ R_CURLY) := by
  decide

/-- C8 (amended): under debug configuration `validate_block_structure`
preorder-walks the whole tree with a stack of open left curly braces and,
for each right curly brace *popped against a non-empty stack*, asserts that
the matched pair share the same parent and that the closer has no next
sibling and the opener no previous sibling; dangling unmatched braces (a
right curly met with an empty stack, or left curlies still on the stack at
the end) trigger no assertion.  Under release configuration the function
does nothing and never crashes. -/
theorem validate_block_structure_characterization (root : SyntaxNodeRef) :
    (validate_block_structure root = true ↔
      ∀ q ∈ bracePairs (preorder root) [],
        q.1.parent = q.2.parent ∧ q.1.next_sibling = none ∧
          q.2.prev_sibling = none) ∧
    validate_block_structure_release root = () := by
  exact ⟨validateLoop_iff (preorder root) [], rfl⟩

end Libsyntax2
